import Mathlib

/-!
Verification of the LTemplate typed-view layer (`LTemplate.h`).

This file gives a shallow embedding of the parts of the header that the
checked properties are about: the sparse CSR view (`SparseArrayRef`,
`SparseMatrixRef`), its random-access read built on `std::lower_bound`,
its bidirectional iterator over explicit entries, the factory
`makeSparseArray`, the host-handle allocation discipline of
`resetImplicitValue` and the nested-literal `makeMatrix`, and the image
views with their interleaved/planar indexing and per-channel pixel
iterators.  Machine integers (`mint`) are modelled as `Int`, flat host
buffers as `List Int`, and host calls that can fail as explicit
parameters or `Except` results.
-/

set_option autoImplicit false

namespace LTemplate

/-- Error taxonomy of the view layer.  In the source every error is a
`LibraryError` carrying an optional message; the constructors here tag
each throw site with its category from the design taxonomy and keep the
message string of the source.  `assertionFailure` models `massert`,
which reports the failed condition on the message channel and throws. -/
inductive LError where
  | patternArrayAccess (msg : String)
  | libraryError (msg : String)
  | assertionFailure (cond : String)
  deriving Repr, DecidableEq

/-- The components of an `MSparseArray` handle as reported by the host
runtime (`MSparseArray_getRowPointers`, `MSparseArray_getColumnIndices`,
`MSparseArray_getExplicitValues`, `MSparseArray_getImplicitValue`).
A `none` column-index or explicit-values buffer means the host reports
no such buffer (`*ci == NULL`, `*ev == NULL`). -/
structure MSparseArray where
  rank : Nat
  dims : List Int
  rp : List Int
  ci : Option (List Int)
  ev : Option (List Int)
  iv : Int
  deriving Repr, DecidableEq

/-- Source `SparseArrayRef<T>`: the generic sparse view.  Its constructor reads
the four CSR components; `getColumnIndices` synthesizes an empty buffer
when the host reports none, so the view always has column indices, while
a missing explicit-values buffer is kept as a null `TensorRef`
(`ev.nullQ()`), marking a pattern array. -/
structure SparseArrayRef where
  rank : Nat
  dims : List Int
  rp : List Int
  ci : List Int
  ev : Option (List Int)
  iv : Int
  deriving Repr, DecidableEq

/-- Construction of a `SparseArrayRef` from a host handle. -/
def SparseArrayRef.ofMSparseArray (m : MSparseArray) : SparseArrayRef :=
  { rank := m.rank, dims := m.dims, rp := m.rp,
    ci := m.ci.getD [],
    ev := m.ev, iv := m.iv }

/-- Source `SparseArrayRef::length()`: the number of explicitly stored
positions, i.e. the flattened length of the column-index buffer. -/
def SparseArrayRef.length (s : SparseArrayRef) : Nat := s.ci.length

/-- Source `SparseArrayRef::explicitValuesQ()`: true iff the explicit-values
buffer is present (`!ev.nullQ()`). -/
def SparseArrayRef.explicitValuesQ (s : SparseArrayRef) : Bool := s.ev.isSome

/-- Source `SparseArrayRef::explicitValues()`: returns the explicit-values
buffer, or throws on a pattern array. -/
def SparseArrayRef.explicitValues (s : SparseArrayRef) : Except LError (List Int) :=
  match s.ev with
  | none => .error (.patternArrayAccess "SparseArrayRef::explicitValues() called on pattern array.")
  | some v => .ok v

/-- Source `SparseMatrixRef<T>`: the rank-2 specialization, caching the row and
column counts read from `dimensions()`. -/
structure SparseMatrixRef extends SparseArrayRef where
  nrows : Nat
  ncols : Nat
  deriving Repr, DecidableEq

/-- The `SparseMatrixRef` constructor: requires `rank() == 2` and caches
`dims[0]`, `dims[1]`. -/
def SparseMatrixRef.ofArray (s : SparseArrayRef) : Except LError SparseMatrixRef :=
  if s.rank = 2 then
    .ok { toSparseArrayRef := s,
          nrows := (s.dims.getD 0 0).toNat, ncols := (s.dims.getD 1 0).toNat }
  else
    .error (.libraryError "SparseMatrixRef: Matrix expected.")

/-- Fuel-indexed unfolding of `std::lower_bound` on a flat integer
buffer: `first` is the absolute index of the start of the range and
`count` its length; the fuel only bounds the recursion depth and the
wrapper `lowerBound` supplies enough of it (the range length halves at
every step, so `count` steps always suffice). -/
def lowerBoundFuel (a : List Int) (v : Int) : Nat → Nat → Nat → Nat
  | 0, first, _ => first
  | fuel + 1, first, count =>
    if count = 0 then first
    else
      let step := count / 2
      if a.getD (first + step) 0 < v then
        lowerBoundFuel a v fuel (first + step + 1) (count - step - 1)
      else
        lowerBoundFuel a v fuel first step

/-- Source `std::lower_bound(&a[first], &a[first+count], v) - &a[0]`: the least
index in `[first, first+count]` at which `v` could be inserted keeping
the range sorted. -/
def lowerBound (a : List Int) (first count : Nat) (v : Int) : Nat :=
  lowerBoundFuel a v count first count

/-- Source `rp[i]` of a sparse matrix, as a natural storage offset. -/
def SparseMatrixRef.rowLower (m : SparseMatrixRef) (i : Nat) : Nat :=
  (m.rp.getD i 0).toNat

/-- Source `rp[i+1]` of a sparse matrix, as a natural storage offset. -/
def SparseMatrixRef.rowUpper (m : SparseMatrixRef) (i : Nat) : Nat :=
  (m.rp.getD (i + 1) 0).toNat

/-- Source `SparseMatrixRef::operator()(i, j)`: the binary-search based
random-access read.  Throws on pattern arrays; otherwise searches the
column-index sub-range `[rp[i], rp[i+1])` for the 1-based key `j+1` with
`std::lower_bound`, and returns the matching explicit value or the
implicit value. -/
def SparseMatrixRef.read (m : SparseMatrixRef) (i j : Nat) : Except LError Int :=
  if m.explicitValuesQ = false then
    .error (.patternArrayAccess "SparseMatrixRef: cannot index into a pattern array.")
  else
    let lower := m.rowLower i
    let upper := m.rowUpper i
    let k := lowerBound m.ci lower (upper - lower) ((j : Int) + 1)
    if k = upper then .ok m.iv
    else if m.ci.getD k 0 = (j : Int) + 1 then .ok ((m.ev.getD []).getD k 0)
    else .ok m.iv

/-- Linear scan of `a` for `key` over the index range
`[lo, lo + count)`, returning the first matching absolute index. -/
def linearFind (a : List Int) (key : Int) : Nat → Nat → Option Nat
  | _, 0 => none
  | lo, count + 1 =>
    if a.getD lo 0 = key then some lo else linearFind a key (lo + 1) count

/-- The specification-side read: scan the column-index sub-range of the row
`[rp[i], rp[i+1])` linearly for `j+1`; on a hit return the explicit
value at that offset, otherwise the implicit value. -/
def SparseMatrixRef.linearRead (m : SparseMatrixRef) (i j : Nat) : Int :=
  let lower := m.rowLower i
  let upper := m.rowUpper i
  match linearFind m.ci ((j : Int) + 1) lower (upper - lower) with
  | some k => (m.ev.getD []).getD k 0
  | none => m.iv

/-- Well-formedness of a 2-D sparse view, following the CSR invariants
of the data model: row pointers have length `rows + 1`, start at 0, are
non-decreasing and end at the explicit-entry count; column indices are
1-based, within the column count, and sorted strictly within each row
(stated here as non-strict monotonicity, which is what the binary
search needs); the explicit-values buffer, when present, is parallel to
the column indices. -/
def SparseMatrixRef.wf (m : SparseMatrixRef) : Prop :=
  m.rp.length = m.nrows + 1 ∧
  m.rp.getD 0 0 = 0 ∧
  (∀ r, r < m.nrows → m.rp.getD r 0 ≤ m.rp.getD (r + 1) 0) ∧
  m.rp.getD m.nrows 0 = (m.ci.length : Int) ∧
  (∀ r, r < m.nrows → ∀ b, b < m.rowUpper r → ∀ a, a < b →
    m.rowLower r ≤ a → m.ci.getD a 0 ≤ m.ci.getD b 0) ∧
  (∀ k, k < m.ci.length → 1 ≤ m.ci.getD k 0 ∧ m.ci.getD k 0 ≤ (m.ncols : Int)) ∧
  (m.ev.map List.length).getD m.ci.length = m.ci.length

/-- Characterization of the embedded `std::lower_bound`: on a range
that is non-decreasing, the result is the least insertion point for
`v` — everything strictly before it is `< v` and the element at it
(when the result is not the end of the range) is `≥ v`. -/
theorem lowerBoundFuel_spec (a : List Int) (v : Int) :
    ∀ fuel count first, count ≤ fuel →
      (∀ x y, first ≤ x → x ≤ y → y < first + count → a.getD x 0 ≤ a.getD y 0) →
      first ≤ lowerBoundFuel a v fuel first count ∧
      lowerBoundFuel a v fuel first count ≤ first + count ∧
      (∀ x, first ≤ x → x < lowerBoundFuel a v fuel first count → a.getD x 0 < v) ∧
      (lowerBoundFuel a v fuel first count < first + count →
        v ≤ a.getD (lowerBoundFuel a v fuel first count) 0) := by
  intro fuel
  induction fuel with
  | zero =>
    intro count first hcf _
    have hc0 : count = 0 := by omega
    subst hc0
    exact ⟨le_refl _, by simp [lowerBoundFuel],
      fun x hx1 hx2 => absurd hx2 (by simp [lowerBoundFuel] ; omega),
      fun h => absurd h (by simp [lowerBoundFuel])⟩
  | succ fuel ih =>
    intro count first hcf hmono
    by_cases h0 : count = 0
    · subst h0
      have hv : lowerBoundFuel a v (fuel + 1) first 0 = first := by
        simp [lowerBoundFuel]
      rw [hv]
      exact ⟨le_refl _, by omega, fun x hx1 hx2 => absurd hx2 (by omega),
        fun h => absurd h (by omega)⟩
    · have hstep : count / 2 < count := Nat.div_lt_self (Nat.pos_of_ne_zero h0) one_lt_two
      simp only [lowerBoundFuel, if_neg h0]
      by_cases hmid : a.getD (first + count / 2) 0 < v
      · rw [if_pos hmid]
        obtain ⟨hge, hub, hbef, hat⟩ :=
          ih (count - count / 2 - 1) (first + count / 2 + 1) (by omega)
            (fun x y hx hxy hy => hmono x y (by omega) hxy (by omega))
        refine ⟨by omega, by omega, ?_, ?_⟩
        · intro x hx1 hx2
          rcases Nat.lt_or_ge x (first + count / 2 + 1) with hlt | hge2
          · calc a.getD x 0 ≤ a.getD (first + count / 2) 0 :=
                  hmono x (first + count / 2) hx1 (by omega) (by omega)
              _ < v := hmid
          · exact hbef x hge2 hx2
        · intro h
          exact hat (by omega)
      · rw [if_neg hmid]
        obtain ⟨hge, hub, hbef, hat⟩ :=
          ih (count / 2) first (by omega)
            (fun x y hx hxy hy => hmono x y hx hxy (by omega))
        refine ⟨hge, by omega, hbef, ?_⟩
        intro _
        rcases Nat.lt_or_ge (lowerBoundFuel a v fuel first (count / 2)) (first + count / 2)
          with hlt | hge2
        · exact hat hlt
        · have hEq : lowerBoundFuel a v fuel first (count / 2) = first + count / 2 := by omega
          rw [hEq]
          exact le_of_not_lt hmid

/-- The wrapper `lowerBound` satisfies the insertion-point
characterization on non-decreasing ranges. -/
theorem lowerBound_spec (a : List Int) (first count : Nat) (v : Int)
    (hmono : ∀ x y, first ≤ x → x ≤ y → y < first + count → a.getD x 0 ≤ a.getD y 0) :
    first ≤ lowerBound a first count v ∧
    lowerBound a first count v ≤ first + count ∧
    (∀ x, first ≤ x → x < lowerBound a first count v → a.getD x 0 < v) ∧
    (lowerBound a first count v < first + count →
      v ≤ a.getD (lowerBound a first count v) 0) :=
  lowerBoundFuel_spec a v count count first (le_refl _) hmono

/-- A linear scan finds nothing when no index of the range matches. -/
theorem linearFind_eq_none (a : List Int) (key : Int) :
    ∀ count lo, (∀ x, lo ≤ x → x < lo + count → a.getD x 0 ≠ key) →
      linearFind a key lo count = none := by
  intro count
  induction count with
  | zero => intro lo _ ; rfl
  | succ n ih =>
    intro lo h
    simp only [linearFind]
    rw [if_neg (h lo (le_refl _) (by omega))]
    exact ih (lo + 1) fun x hx1 hx2 => h x (by omega) (by omega)

/-- A linear scan returns the first matching index of the range. -/
theorem linearFind_eq_some (a : List Int) (key : Int) :
    ∀ count lo k, lo ≤ k → k < lo + count →
      (∀ x, lo ≤ x → x < k → a.getD x 0 ≠ key) →
      a.getD k 0 = key →
      linearFind a key lo count = some k := by
  intro count
  induction count with
  | zero => intro lo k h1 h2 _ _ ; omega
  | succ n ih =>
    intro lo k h1 h2 hbef hk
    simp only [linearFind]
    rcases Nat.eq_or_lt_of_le h1 with rfl | hlt
    · rw [if_pos hk]
    · rw [if_neg (hbef lo (le_refl _) hlt)]
      exact ih (lo + 1) k (by omega) (by omega)
        (fun x hx1 hx2 => hbef x (by omega) hx2) hk

/-- Claim C1: for every well-formed 2-D sparse view with explicit
values and every 0-based in-range position `(i, j)`, the random-access
read binary-searches the column-index sub-range `[rp[i], rp[i+1])` for
the 1-based key `j+1` and returns the explicit value at the matching
offset when found, otherwise the implicit value; this equals the result
of a linear scan of the same sub-range. -/
theorem sparse_read_eq_linear_scan (m : SparseMatrixRef) (i j : Nat)
    (hwf : m.wf) (hev : m.explicitValuesQ = true)
    (hi : i < m.nrows) (hj : j < m.ncols) :
    m.read i j = Except.ok (m.linearRead i j) := by
  obtain ⟨hlen, h0, hmonorp, hlast, hsort, hcir, hevlen⟩ := hwf
  have hle : m.rowLower i ≤ m.rowUpper i := Int.toNat_le_toNat (hmonorp i hi)
  have hcnt : m.rowLower i + (m.rowUpper i - m.rowLower i) = m.rowUpper i := by omega
  have hmono2 : ∀ x y, m.rowLower i ≤ x → x ≤ y →
      y < m.rowLower i + (m.rowUpper i - m.rowLower i) →
      m.ci.getD x 0 ≤ m.ci.getD y 0 := by
    intro x y hx hxy hy
    rcases Nat.eq_or_lt_of_le hxy with rfl | hlt
    · exact le_refl _
    · exact hsort i hi y (by omega) x hlt hx
  obtain ⟨hge, hub, hbef, hat⟩ :=
    lowerBound_spec m.ci (m.rowLower i) (m.rowUpper i - m.rowLower i) ((j : Int) + 1) hmono2
  simp only [SparseMatrixRef.read, SparseMatrixRef.linearRead, hev, Bool.true_eq_false,
    if_false]
  by_cases hk : lowerBound m.ci (m.rowLower i) (m.rowUpper i - m.rowLower i) ((j : Int) + 1)
      = m.rowUpper i
  · rw [if_pos hk]
    rw [linearFind_eq_none m.ci ((j : Int) + 1) (m.rowUpper i - m.rowLower i) (m.rowLower i)
      (fun x hx1 hx2 => ne_of_lt (hbef x hx1 (by omega)))]
  · rw [if_neg hk]
    have hklt : lowerBound m.ci (m.rowLower i) (m.rowUpper i - m.rowLower i) ((j : Int) + 1)
        < m.rowUpper i := by omega
    by_cases hkey : m.ci.getD
        (lowerBound m.ci (m.rowLower i) (m.rowUpper i - m.rowLower i) ((j : Int) + 1)) 0
        = (j : Int) + 1
    · rw [if_pos hkey]
      rw [linearFind_eq_some m.ci ((j : Int) + 1) (m.rowUpper i - m.rowLower i) (m.rowLower i)
        (lowerBound m.ci (m.rowLower i) (m.rowUpper i - m.rowLower i) ((j : Int) + 1))
        hge (by omega)
        (fun x hx1 hx2 => ne_of_lt (hbef x hx1 hx2)) hkey]
    · rw [if_neg hkey]
      have hgt : (j : Int) + 1 < m.ci.getD
          (lowerBound m.ci (m.rowLower i) (m.rowUpper i - m.rowLower i) ((j : Int) + 1)) 0 :=
        lt_of_le_of_ne (hat (by omega)) (fun h => hkey h.symm)
      rw [linearFind_eq_none m.ci ((j : Int) + 1) (m.rowUpper i - m.rowLower i) (m.rowLower i) ?_]
      intro x hx1 hx2
      rcases Nat.lt_or_ge x
        (lowerBound m.ci (m.rowLower i) (m.rowUpper i - m.rowLower i) ((j : Int) + 1))
        with hlt | hge2
      · exact ne_of_lt (hbef x hx1 hlt)
      · have : m.ci.getD
            (lowerBound m.ci (m.rowLower i) (m.rowUpper i - m.rowLower i) ((j : Int) + 1)) 0
            ≤ m.ci.getD x 0 := hmono2 _ x hge hge2 hx2
        omega

instance (m : SparseMatrixRef) : Decidable m.wf := by
  unfold SparseMatrixRef.wf
  infer_instance

/-- A concrete well-formed 2-by-3 sparse matrix with explicit entries
at positions (0,0), (0,2) and (1,1): `rp = [0,2,3]`, `ci = [1,3,2]`. -/
def exSparse : SparseMatrixRef :=
  { rank := 2, dims := [2, 3], rp := [0, 2, 3], ci := [1, 3, 2],
    ev := some [10, 20, 30], iv := 7, nrows := 2, ncols := 3 }

/-- Witness for C1 at the concrete matrix `exSparse`, position (0,2). -/
theorem sparse_read_eq_linear_scan_witness :
    exSparse.wf ∧ exSparse.explicitValuesQ = true ∧ 0 < exSparse.nrows ∧
      2 < exSparse.ncols ∧ exSparse.read 0 2 = Except.ok (exSparse.linearRead 0 2) :=
  ⟨by decide, by decide, by decide, by decide,
    sparse_read_eq_linear_scan exSparse 0 2 (by decide) (by decide) (by decide) (by decide)⟩

/-- Source `SparseMatrixRef<T>::iterator`: carries the current row index and
the current storage offset into the column-index/value buffers. -/
structure SpIterator where
  row_index : Nat
  index : Nat
  deriving Repr, DecidableEq

/-- Fuel-indexed unfolding of the row-advance loop of the iterator
`while (rp[row_index+1] == idx && row_index < size()) row_index++`
(the same loop body runs in `begin()` with `idx = 0`).  The guard
bounds `row_index` by `size()` and increments it each iteration, so
`size()` units of fuel always suffice; the wrapper supplies them. -/
def advanceRowFuel (m : SparseMatrixRef) (idx : Int) : Nat → Nat → Nat
  | 0, r => r
  | fuel + 1, r =>
    if m.rp.getD (r + 1) 0 = idx ∧ r < m.length then advanceRowFuel m idx fuel (r + 1)
    else r

/-- The row-advance loop of the iterator, started at row `r` with the
current storage offset `idx`. -/
def SparseMatrixRef.advanceRow (m : SparseMatrixRef) (idx : Int) (r : Nat) : Nat :=
  advanceRowFuel m idx m.length r

/-- Source `SparseMatrixRef::begin()`: starts at offset 0 and runs the
row-advance loop `while (rp[row_index+1] == 0 && row_index < size())`
from row 0. -/
def SparseMatrixRef.beginIt (m : SparseMatrixRef) : SpIterator :=
  ⟨m.advanceRow 0 0, 0⟩

/-- Source `SparseMatrixRef::end()`: the sentinel at `(rows(), size())`. -/
def SparseMatrixRef.endIt (m : SparseMatrixRef) : SpIterator :=
  ⟨m.nrows, m.length⟩

/-- Source `iterator::operator++`: increments the storage offset, then runs
the row-advance loop against the new offset. -/
def SparseMatrixRef.iterNext (m : SparseMatrixRef) (it : SpIterator) : SpIterator :=
  ⟨m.advanceRow ((it.index : Int) + 1) it.row_index, it.index + 1⟩

/-- Source `iterator::operator==`: compares the storage offsets only; the
cached row indices are ignored. -/
def iterEq (a b : SpIterator) : Bool := a.index == b.index

/-- Source `iterator::row()`: the cached row index (0-based). -/
def SpIterator.row (it : SpIterator) : Nat := it.row_index

/-- Source `iterator::col()`: the 0-based column, `ci[index] - 1`. -/
def SparseMatrixRef.iterCol (m : SparseMatrixRef) (it : SpIterator) : Int :=
  m.ci.getD it.index 0 - 1

/-- Fuel-indexed traversal from an iterator to `end()`: record
`(row(), col(), offset)` and advance with `operator++` while the
iterator differs from `end()`.  Each step increments the offset, so
`size()` units of fuel suffice from `begin()`. -/
def visitFuel (m : SparseMatrixRef) : Nat → SpIterator → List (Nat × Int × Nat)
  | 0, _ => []
  | fuel + 1, it =>
    if iterEq it m.endIt then []
    else (it.row, m.iterCol it, it.index) :: visitFuel m fuel (m.iterNext it)

/-- The full `begin()`-to-`end()` traversal of the explicit entries. -/
def SparseMatrixRef.visit (m : SparseMatrixRef) : List (Nat × Int × Nat) :=
  visitFuel m m.length m.beginIt

/-- A well-formed 3-by-1 sparse matrix whose only explicit entry lies
in row 2 (0-based): `rp = [0, 0, 0, 1]`, `ci = [1]`. -/
def exIterBug : SparseMatrixRef :=
  { rank := 2, dims := [3, 1], rp := [0, 0, 0, 1], ci := [1],
    ev := some [7], iv := 0, nrows := 3, ncols := 1 }

/-- Claim C2, evaluated at the failing input: the row-advance loops
bound the row index by `size()` (here 1) instead of `rows()`, so on
`exIterBug` the traversal reports its single explicit entry with
`row() = 1`, although the row pointers place storage offset 0 in row 2
(`rp[2] ≤ 0 < rp[3]`), which is also the first row that has explicit
entries. -/
theorem sparse_iter_row_misreported :
    exIterBug.wf ∧
    exIterBug.visit.map (fun e => e.1) = [1] ∧
    exIterBug.rp.getD 2 0 ≤ 0 ∧ (0 : Int) < exIterBug.rp.getD 3 0 ∧
    exIterBug.beginIt.row = 1 := by decide

/-- An empty 2-by-2 sparse matrix (no explicit entries). -/
def exEmpty : SparseMatrixRef :=
  { rank := 2, dims := [2, 2], rp := [0, 0, 0], ci := [], ev := some [],
    iv := 0, nrows := 2, ncols := 2 }

/-- Claim C9: iterator equality compares only the storage offset and
ignores the cached row index, so `begin() == end()` holds exactly when
the view has no explicit entries — even though (as on `exEmpty`) the
two iterators carry different row indices. -/
theorem sparse_iter_eq_ignores_row :
    (∀ a b : SpIterator, iterEq a b = true ↔ a.index = b.index) ∧
    (∀ m : SparseMatrixRef, iterEq m.beginIt m.endIt = true ↔ m.length = 0) ∧
    (iterEq exEmpty.beginIt exEmpty.endIt = true ∧
      exEmpty.beginIt.row_index ≠ exEmpty.endIt.row_index) := by
  refine ⟨fun a b => by simp [iterEq], fun m => ?_, by decide⟩
  simp only [iterEq, SparseMatrixRef.beginIt, SparseMatrixRef.endIt, beq_iff_eq]
  exact eq_comm

/-- A 2-by-2 pattern-array view: one explicit position, no
explicit-values buffer, implicit value 5. -/
def exPattern : SparseMatrixRef :=
  { rank := 2, dims := [2, 2], rp := [0, 1, 1], ci := [1],
    ev := none, iv := 5, nrows := 2, ncols := 2 }

/-- Claim C3 counterexample: on the pattern array `exPattern` the
in-range 2-D indexed read `(0,0)` does not return the implicit value —
it raises the pattern-array error. -/
theorem pattern_read_cex :
    exPattern.explicitValuesQ = false ∧ 0 < exPattern.nrows ∧ 0 < exPattern.ncols ∧
    exPattern.read 0 0 ≠ Except.ok exPattern.iv := by
  refine ⟨rfl, by decide, by decide, fun h => ?_⟩
  exact Except.noConfusion h

/-- Claim C3 (amended): for every 2-D sparse view whose explicit-values
buffer is absent and every in-range position, the indexed read fails
with the pattern-array error instead of returning the implicit
value. -/
theorem pattern_read_raises (m : SparseMatrixRef) (i j : Nat)
    (h : m.ev = none) (hi : i < m.nrows) (hj : j < m.ncols) :
    m.read i j =
      Except.error
        (.patternArrayAccess "SparseMatrixRef: cannot index into a pattern array.") := by
  simp [SparseMatrixRef.read, SparseArrayRef.explicitValuesQ, h]

/-- Witness for the amended C3 at `exPattern`, position (0,0). -/
theorem pattern_read_raises_witness :
    exPattern.ev = none ∧ 0 < exPattern.nrows ∧ 0 < exPattern.ncols ∧
      exPattern.read 0 0 =
        Except.error
          (.patternArrayAccess "SparseMatrixRef: cannot index into a pattern array.") :=
  ⟨rfl, by decide, by decide, pattern_read_raises exPattern 0 0 rfl (by decide) (by decide)⟩

/-- Claim C4: when the host reports no explicit-values buffer the view
is marked a pattern array (`explicitValuesQ() == false`), and in that
state `explicitValues()` on the generic view and the 2-D random-access
read both fail with the pattern-array error. -/
theorem pattern_array_access_errors (msa : MSparseArray) (h : msa.ev = none) :
    (SparseArrayRef.ofMSparseArray msa).explicitValuesQ = false ∧
    (SparseArrayRef.ofMSparseArray msa).explicitValues =
      Except.error
        (.patternArrayAccess "SparseArrayRef::explicitValues() called on pattern array.") ∧
    ∀ (nr nc i j : Nat),
      (SparseMatrixRef.mk (SparseArrayRef.ofMSparseArray msa) nr nc).read i j =
        Except.error
          (.patternArrayAccess "SparseMatrixRef: cannot index into a pattern array.") := by
  refine ⟨?_, ?_, ?_⟩
  · simp [SparseArrayRef.ofMSparseArray, SparseArrayRef.explicitValuesQ, h]
  · simp [SparseArrayRef.ofMSparseArray, SparseArrayRef.explicitValues, h]
  · intro nr nc i j
    simp [SparseMatrixRef.read, SparseArrayRef.ofMSparseArray,
      SparseArrayRef.explicitValuesQ, h]

/-- A host sparse handle reporting no explicit-values buffer. -/
def exHostPattern : MSparseArray :=
  { rank := 2, dims := [2, 2], rp := [0, 1, 1], ci := some [1], ev := none, iv := 5 }

/-- Witness for C4 at the host handle `exHostPattern`. -/
theorem pattern_array_access_errors_witness :
    (SparseArrayRef.ofMSparseArray exHostPattern).explicitValuesQ = false :=
  (pattern_array_access_errors exHostPattern rfl).1

/-- A rank-2 integer tensor view (`IntMatrixRef`), used for the
positions argument of `makeSparseArray`. -/
structure IntMatrix where
  nrows : Nat
  ncols : Nat
  data : List Int
  deriving Repr, DecidableEq

/-- Source `makeSparseArray(pos, vals, dims, imp)`: checks the two `massert`
shape assertions, allocates a temporary rank-0 implicit-value tensor,
delegates to the host constructor
`MSparseArray_fromExplicitPositions` (a black box whose outcome is
passed in as `host`), frees the temporary, propagates host failure,
and finally patches a pattern-array result by inserting an explicit
empty values buffer so the factory never returns a pattern array. -/
def makeSparseArray (host : Except Int MSparseArray)
    (pos : IntMatrix) (vals : List Int) (dims : List Int) (imp : Int) :
    Except LError MSparseArray :=
  if pos.ncols ≠ dims.length then
    .error (.assertionFailure "pos.cols() == dims.size()")
  else if pos.nrows ≠ vals.length then
    .error (.assertionFailure "pos.rows() == vals.size()")
  else
    match host with
    | .error _ =>
      .error (.libraryError "makeSparseArray: MSparseArray_fromExplicitPositions() failed.")
    | .ok sa => if sa.ev = none then .ok { sa with ev := some [] } else .ok sa

/-- Claim C5: called with a zero-row positions matrix and matching
zero-length values, `makeSparseArray` never hands back a pattern
array: whatever the host returns for the empty input — a pattern array
(`ev = none`) or not — the result view has `explicitValuesQ() = true`
and `length() = 0`, the factory inserting the explicit empty values
buffer in the pattern case. -/
theorem makeSparseArray_empty_not_pattern
    (host : MSparseArray) (pos : IntMatrix) (vals : List Int) (dims : List Int) (imp : Int)
    (hpc : pos.ncols = dims.length) (hpr : pos.nrows = 0) (hvl : vals.length = 0)
    (hci : host.ci = none ∨ host.ci = some []) :
    ∃ sa, makeSparseArray (.ok host) pos vals dims imp = .ok sa ∧
      (host.ev = none → sa.ev = some []) ∧
      (SparseArrayRef.ofMSparseArray sa).explicitValuesQ = true ∧
      (SparseArrayRef.ofMSparseArray sa).length = 0 := by
  cases hev : host.ev with
  | none =>
    refine ⟨{ host with ev := some [] }, ?_, fun _ => rfl, rfl, ?_⟩
    · simp [makeSparseArray, hpc, hpr, hvl, hev]
    · rcases hci with h | h <;>
        simp [SparseArrayRef.ofMSparseArray, SparseArrayRef.length, h]
  | some l =>
    refine ⟨host, ?_, ?_, ?_, ?_⟩
    · simp [makeSparseArray, hpc, hpr, hvl, hev]
    · intro h
      simp [hev] at h
    · simp [SparseArrayRef.ofMSparseArray, SparseArrayRef.explicitValuesQ, hev]
    · rcases hci with h | h <;>
        simp [SparseArrayRef.ofMSparseArray, SparseArrayRef.length, h]

/-- A host result for `fromExplicitPositions` on an empty position
list: a 3-by-3 pattern array with no buffers. -/
def exHostEmptyPattern : MSparseArray :=
  { rank := 2, dims := [3, 3], rp := [0, 0, 0, 0], ci := none, ev := none, iv := 0 }

/-- Witness for C5: the factory applied to zero positions and the
pattern-array host result. -/
theorem makeSparseArray_empty_not_pattern_witness :
    ∃ sa, makeSparseArray (.ok exHostEmptyPattern) ⟨0, 2, []⟩ [] [3, 3] 0 = .ok sa ∧
      (exHostEmptyPattern.ev = none → sa.ev = some []) ∧
      (SparseArrayRef.ofMSparseArray sa).explicitValuesQ = true ∧
      (SparseArrayRef.ofMSparseArray sa).length = 0 :=
  makeSparseArray_empty_not_pattern exHostEmptyPattern ⟨0, 2, []⟩ [] [3, 3] 0
    rfl rfl rfl (Or.inl rfl)

/-- A host-handle allocation state: the next fresh handle id and the
ids currently allocated and not yet freed. -/
structure AllocState where
  next : Nat
  live : List Nat
  deriving Repr, DecidableEq

/-- Allocate a fresh host handle (`MTensor_new`, host constructors). -/
def alloc (σ : AllocState) : Nat × AllocState :=
  (σ.next, ⟨σ.next + 1, σ.next :: σ.live⟩)

/-- Free a host handle (`MTensor_free`). -/
def release (h : Nat) (σ : AllocState) : AllocState :=
  ⟨σ.next, σ.live.filter (fun x => x != h)⟩

/-- Source `SparseArrayRef::resetImplicitValue(const T &iv)` over the
allocation state, with the outcome of the host reset call passed in
(`hostErr = some e` models `MSparseArray_resetImplicitValue` failing
with code `e`, in which case no result handle is produced): the source
allocates the temporary rank-0 implicit-value tensor, stores the new
implicit value in it, calls the host, throws on host failure, and
frees the temporary only after the error check — the statements are
modelled in exactly that order. -/
def resetImplicitValueNew (hostErr : Option Int) (σ : AllocState) :
    Except LError Nat × AllocState :=
  let a1 := alloc σ
  match hostErr with
  | some _ => (.error (.libraryError "MSparseArray_resetImplicitValue() failed."), a1.2)
  | none =>
    let a2 := alloc a1.2
    (.ok a2.1, release a1.1 a2.2)

/-- Source `makeMatrix(std::initializer_list<std::initializer_list<T>>)` over
the allocation state: allocates the result tensor sized by the first
row, then copies row by row, with `massert(row.size() == t.cols())`
throwing on the first jagged row — without freeing the tensor. -/
def makeMatrixLit (rows : List (List Int)) (σ : AllocState) :
    Except LError (Nat × List Int) × AllocState :=
  let ncols := (rows.headD []).length
  let a1 := alloc σ
  if rows.all (fun r => r.length == ncols) then
    (.ok (a1.1, rows.flatten), a1.2)
  else
    (.error (.assertionFailure "row.size() == t.cols()"), a1.2)

/-- Claim C6, evaluated at the failing inputs: (a) when the host reset
call fails, `resetImplicitValue(new-implicit)` throws with the
temporary rank-0 tensor (handle 0) still allocated and unreachable —
it leaks; (b) on the jagged literal `{{1,2},{3}}`, `makeMatrix` throws
with its freshly allocated tensor still live.  For contrast, on the
success path of (a) the temporary is freed and only the returned
handle stays live, which is what the claim asserts for all paths. -/
theorem handle_leak_on_error_paths :
    ((resetImplicitValueNew (some 1) ⟨0, []⟩).1 =
        .error (.libraryError "MSparseArray_resetImplicitValue() failed.") ∧
      (resetImplicitValueNew (some 1) ⟨0, []⟩).2.live = [0]) ∧
    (resetImplicitValueNew none ⟨0, []⟩).2.live = [1] ∧
    ((makeMatrixLit [[1, 2], [3]] ⟨0, []⟩).1 =
        .error (.assertionFailure "row.size() == t.cols()") ∧
      (makeMatrixLit [[1, 2], [3]] ⟨0, []⟩).2.live = [0]) :=
  ⟨⟨rfl, rfl⟩, rfl, rfl, rfl⟩

/-- A bare host tensor: rank, dimensions, flat data. -/
structure MTensorData where
  rank : Nat
  dims : List Nat
  data : List Int
  deriving Repr, DecidableEq

/-- Source `makeMatrix<mint>(0, r)`: a freshly built empty 0-by-`r` integer
matrix. -/
def emptyIntMatrix (r : Nat) : MTensorData := ⟨2, [0, r], []⟩

/-- Source `SparseArrayRef::explicitPositions()`, with the tensor produced by
the host call `MSparseArray_getExplicitPositions` passed in: when the
host hands back a rank-0 tensor (its behavior when there are no
explicit positions), the view frees it and returns a freshly built
0-by-rank matrix instead; otherwise the host tensor is returned
unchanged. -/
def SparseArrayRef.explicitPositionsFrom (s : SparseArrayRef) (hostT : MTensorData) :
    MTensorData :=
  if hostT.rank = 0 then emptyIntMatrix s.rank
  else hostT

/-- Claim C10: provided the host returns its rank-0 tensor exactly when
the array has no explicit entries and otherwise a rank-2
entries-by-rank positions matrix, `explicitPositions()` always returns
a rank-2 tensor with one row per explicitly stored entry and rank-many
columns; in the empty case it is the freshly built 0-by-rank matrix,
not the rank-0 tensor of the host. -/
theorem explicitPositions_shape (s : SparseArrayRef) (hostT : MTensorData)
    (h0 : hostT.rank = 0 → s.length = 0)
    (h2 : hostT.rank ≠ 0 → hostT.rank = 2 ∧ hostT.dims = [s.length, s.rank]) :
    (s.explicitPositionsFrom hostT).rank = 2 ∧
    (s.explicitPositionsFrom hostT).dims = [s.length, s.rank] ∧
    (hostT.rank = 0 → s.explicitPositionsFrom hostT = emptyIntMatrix s.rank) := by
  by_cases h : hostT.rank = 0
  · simp [SparseArrayRef.explicitPositionsFrom, h, emptyIntMatrix, h0 h]
  · obtain ⟨ha, hb⟩ := h2 h
    simp [SparseArrayRef.explicitPositionsFrom, h, ha, hb]

/-- A rank-3 sparse view with no explicit entries. -/
def exArrView : SparseArrayRef :=
  { rank := 3, dims := [2, 2, 2], rp := [0, 0, 0], ci := [], ev := some [], iv := 0 }

/-- Witness for C10: the empty view and the rank-0 host tensor. -/
theorem explicitPositions_shape_witness :
    (exArrView.explicitPositionsFrom ⟨0, [], []⟩).rank = 2 ∧
    (exArrView.explicitPositionsFrom ⟨0, [], []⟩).dims = [exArrView.length, exArrView.rank] ∧
    ((0 : Nat) = 0 → exArrView.explicitPositionsFrom ⟨0, [], []⟩ = emptyIntMatrix exArrView.rank) :=
  explicitPositions_shape exArrView ⟨0, [], []⟩ (fun _ => rfl) (fun h => absurd rfl h)

/-- Source `ImageRef<T>` (2-D image view): cached extents, the
interleaved-layout flag, and the flat pixel buffer (`slices() = 1` for
2-D images). -/
structure ImageData where
  nrows : Nat
  ncols : Nat
  nchannels : Nat
  interleaved : Bool
  pixels : List Int
  deriving Repr, DecidableEq

/-- Source `GenericImageRef::channelSize()` for a 2-D image:
`slices()*rows()*cols()` with `slices() = 1`. -/
def ImageData.channelSize (im : ImageData) : Nat := im.nrows * im.ncols

/-- The flat offset accessed by `ImageRef<T>::operator()(row, col,
channel)`. -/
def ImageData.index (im : ImageData) (row col channel : Nat) : Nat :=
  if im.interleaved then row * im.ncols * im.nchannels + col * im.nchannels + channel
  else channel * im.nrows * im.ncols + row * im.ncols + col

/-- Reading a pixel through `operator()`. -/
def ImageData.get (im : ImageData) (row col channel : Nat) : Int :=
  im.pixels.getD (im.index row col channel) 0

/-- Writing a pixel through `operator()` (the operator returns a
mutable reference into the pixel buffer). -/
def ImageData.put (im : ImageData) (row col channel : Nat) (v : Int) : ImageData :=
  { im with pixels := im.pixels.set (im.index row col channel) v }

/-- Source `Image3DRef<T>` (3-D image view). -/
structure Image3DData where
  nslices : Nat
  nrows : Nat
  ncols : Nat
  nchannels : Nat
  interleaved : Bool
  pixels : List Int
  deriving Repr, DecidableEq

/-- Source `GenericImageRef::channelSize()` for a 3-D image:
`slices()*rows()*cols()`. -/
def Image3DData.channelSize (im : Image3DData) : Nat :=
  im.nslices * im.nrows * im.ncols

/-- The flat offset accessed by `Image3DRef<T>::operator()(slice, row,
col, channel)`. -/
def Image3DData.index (im : Image3DData) (slice row col channel : Nat) : Nat :=
  if im.interleaved then
    slice * im.nrows * im.ncols * im.nchannels + row * im.ncols * im.nchannels +
      col * im.nchannels + channel
  else
    channel * im.nslices * im.nrows * im.ncols + slice * im.nrows * im.ncols +
      row * im.ncols + col

/-- Reading a pixel through the 3-D `operator()`. -/
def Image3DData.get (im : Image3DData) (slice row col channel : Nat) : Int :=
  im.pixels.getD (im.index slice row col channel) 0

/-- Writing a pixel through the 3-D `operator()`. -/
def Image3DData.put (im : Image3DData) (slice row col channel : Nat) (v : Int) :
    Image3DData :=
  { im with pixels := im.pixels.set (im.index slice row col channel) v }

/-- Setting then reading a list position that is in range yields the
written value. -/
theorem getD_set_self (l : List Int) (n : Nat) (v : Int) (h : n < l.length) :
    (l.set n v).getD n 0 = v := by
  induction l generalizing n with
  | nil => simp at h
  | cons a t ih =>
    cases n with
    | zero => rfl
    | succ k =>
      have hk : k < t.length := by simpa using h
      simpa using ih k hk

/-- Mixed-radix digit bound: `a*B + b < A*B` when `a < A`, `b < B`. -/
theorem digit_lt {a A b B : Nat} (ha : a < A) (hb : b < B) : a * B + b < A * B :=
  calc a * B + b < a * B + B := by omega
    _ = (a + 1) * B := by ring
    _ ≤ A * B := Nat.mul_le_mul_right B ha

/-- The 2-D image offset is within the pixel buffer for in-range
coordinates. -/
theorem image2_index_lt (im : ImageData) (r c ch : Nat)
    (hr : r < im.nrows) (hc : c < im.ncols) (hch : ch < im.nchannels)
    (hlen : im.pixels.length = im.nrows * im.ncols * im.nchannels) :
    im.index r c ch < im.pixels.length := by
  rw [hlen]
  unfold ImageData.index
  by_cases h : im.interleaved <;> simp only [h, if_true, if_false]
  · calc r * im.ncols * im.nchannels + c * im.nchannels + ch
        = (r * im.ncols + c) * im.nchannels + ch := by ring
      _ < im.nrows * im.ncols * im.nchannels := digit_lt (digit_lt hr hc) hch
  · calc ch * im.nrows * im.ncols + r * im.ncols + c
        = ch * (im.nrows * im.ncols) + (r * im.ncols + c) := by ring
      _ < im.nchannels * (im.nrows * im.ncols) := digit_lt hch (digit_lt hr hc)
      _ = im.nrows * im.ncols * im.nchannels := by ring

/-- The 3-D image offset is within the pixel buffer for in-range
coordinates. -/
theorem image3_index_lt (im : Image3DData) (s r c ch : Nat)
    (hs : s < im.nslices) (hr : r < im.nrows) (hc : c < im.ncols) (hch : ch < im.nchannels)
    (hlen : im.pixels.length = im.nslices * im.nrows * im.ncols * im.nchannels) :
    im.index s r c ch < im.pixels.length := by
  rw [hlen]
  unfold Image3DData.index
  by_cases h : im.interleaved <;> simp only [h, if_true, if_false]
  · calc s * im.nrows * im.ncols * im.nchannels + r * im.ncols * im.nchannels +
          c * im.nchannels + ch
        = (((s * im.nrows + r) * im.ncols) + c) * im.nchannels + ch := by ring
      _ < im.nslices * im.nrows * im.ncols * im.nchannels :=
          digit_lt (digit_lt (digit_lt hs hr) hc) hch
  · calc ch * im.nslices * im.nrows * im.ncols + s * im.nrows * im.ncols +
          r * im.ncols + c
        = ch * (im.nslices * im.nrows * im.ncols) + ((s * im.nrows + r) * im.ncols + c) := by
          ring
      _ < im.nchannels * (im.nslices * im.nrows * im.ncols) :=
          digit_lt hch (digit_lt (digit_lt hs hr) hc)
      _ = im.nslices * im.nrows * im.ncols * im.nchannels := by ring

/-- Claim C7: the 2-D image access offset is
`row*cols*channels + col*channels + channel` when interleaved and
`channel*rows*cols + row*cols + col` when planar; the 3-D access offset
is `slice*rows*cols*channels + row*cols*channels + col*channels +
channel` when interleaved and `channel*slices*rows*cols +
slice*rows*cols + row*cols + col` when planar; consequently writing and
then reading the same in-range logical pixel coordinate yields the
written value under either layout. -/
theorem image_indexing (im2 : ImageData) (im3 : Image3DData)
    (r c ch s r3 c3 ch3 : Nat) (v w : Int)
    (hr : r < im2.nrows) (hc : c < im2.ncols) (hch : ch < im2.nchannels)
    (hlen2 : im2.pixels.length = im2.nrows * im2.ncols * im2.nchannels)
    (hs : s < im3.nslices) (hr3 : r3 < im3.nrows) (hc3 : c3 < im3.ncols)
    (hch3 : ch3 < im3.nchannels)
    (hlen3 : im3.pixels.length = im3.nslices * im3.nrows * im3.ncols * im3.nchannels) :
    im2.index r c ch = (if im2.interleaved then
        r * im2.ncols * im2.nchannels + c * im2.nchannels + ch
      else ch * im2.nrows * im2.ncols + r * im2.ncols + c) ∧
    im3.index s r3 c3 ch3 = (if im3.interleaved then
        s * im3.nrows * im3.ncols * im3.nchannels + r3 * im3.ncols * im3.nchannels +
          c3 * im3.nchannels + ch3
      else ch3 * im3.nslices * im3.nrows * im3.ncols + s * im3.nrows * im3.ncols +
        r3 * im3.ncols + c3) ∧
    (im2.put r c ch v).get r c ch = v ∧
    (im3.put s r3 c3 ch3 w).get s r3 c3 ch3 = w := by
  refine ⟨rfl, rfl, ?_, ?_⟩
  · unfold ImageData.get ImageData.put
    exact getD_set_self _ _ _
      (by simpa using image2_index_lt im2 r c ch hr hc hch hlen2)
  · unfold Image3DData.get Image3DData.put
    exact getD_set_self _ _ _
      (by simpa using image3_index_lt im3 s r3 c3 ch3 hs hr3 hc3 hch3 hlen3)

/-- A 2-by-2 two-channel interleaved image, all pixels zero. -/
def exImage2 : ImageData := ⟨2, 2, 2, true, List.replicate 8 0⟩

/-- A 2-slice 2-by-2 two-channel planar 3-D image, all pixels zero. -/
def exImage3 : Image3DData := ⟨2, 2, 2, 2, false, List.replicate 16 0⟩

/-- Witness for C7: writing 200 at pixel (0,0,channel 1) of the 2-D
image and 9 at (1,0,1,channel 0) of the 3-D image reads back. -/
theorem image_indexing_witness :
    exImage2.pixels.length = exImage2.nrows * exImage2.ncols * exImage2.nchannels ∧
    (exImage2.put 0 0 1 200).get 0 0 1 = 200 ∧
    (exImage3.put 1 0 1 0 9).get 1 0 1 0 = 9 :=
  ⟨by decide,
    (image_indexing exImage2 exImage3 0 0 1 1 0 1 0 200 9 (by decide) (by decide)
      (by decide) (by decide) (by decide) (by decide) (by decide) (by decide)
      (by decide)).2.2.1,
    (image_indexing exImage2 exImage3 0 0 1 1 0 1 0 200 9 (by decide) (by decide)
      (by decide) (by decide) (by decide) (by decide) (by decide) (by decide)
      (by decide)).2.2.2⟩

/-- Source `pixel_iterator<T>`: a pointer into the pixel buffer (kept here as
an offset from the image data base) together with the stride. -/
structure PixelIterator where
  ptr : Int
  step : Int
  deriving Repr, DecidableEq

/-- Source `pixel_iterator::operator+(n)`: advance by `n` strides. -/
def PixelIterator.add (it : PixelIterator) (n : Int) : PixelIterator :=
  ⟨it.ptr + n * it.step, it.step⟩

/-- The stride-scaled pointer difference `(ptr - it.ptr)/step` that
`pixel_iterator::operator-(const pixel_iterator &)` computes (in the
source the expression is computed but never returned). -/
def PixelIterator.diff (a b : PixelIterator) : Int := (a.ptr - b.ptr) / a.step

/-- The pointer comparison `ptr < it.ptr` computed (but not returned)
by `pixel_iterator::operator<`. -/
def PixelIterator.lt (a b : PixelIterator) : Prop := a.ptr < b.ptr

/-- The pointer comparison computed (but not returned) by
`pixel_iterator::operator>`. -/
def PixelIterator.gt (a b : PixelIterator) : Prop := a.ptr > b.ptr

/-- The pointer comparison computed (but not returned) by
`pixel_iterator::operator<=`. -/
def PixelIterator.le (a b : PixelIterator) : Prop := a.ptr ≤ b.ptr

/-- The pointer comparison computed (but not returned) by
`pixel_iterator::operator>=`. -/
def PixelIterator.ge (a b : PixelIterator) : Prop := a.ptr ≥ b.ptr

/-- Source `ImageRef<T>::pixelBegin(channel)`: interleaved layout starts at
offset `channel` with stride `channels()`; planar layout starts at
offset `channelSize()*channel` with stride 1. -/
def ImageData.pixelBegin (im : ImageData) (channel : Nat) : PixelIterator :=
  if im.interleaved then ⟨channel, im.nchannels⟩
  else ⟨(im.channelSize : Int) * channel, 1⟩

/-- Source `ImageRef<T>::pixelEnd(channel) = pixelBegin(channel) +
channelSize()`. -/
def ImageData.pixelEnd (im : ImageData) (channel : Nat) : PixelIterator :=
  (im.pixelBegin channel).add im.channelSize

/-- Source `Image3DRef<T>::pixelBegin(channel)`: same layout rule as the 2-D
view, with the 3-D `channelSize()`. -/
def Image3DData.pixelBegin (im : Image3DData) (channel : Nat) : PixelIterator :=
  if im.interleaved then ⟨channel, im.nchannels⟩
  else ⟨(im.channelSize : Int) * channel, 1⟩

/-- Source `Image3DRef<T>::pixelEnd(channel) = pixelBegin(channel) +
channelSize()`. -/
def Image3DData.pixelEnd (im : Image3DData) (channel : Nat) : PixelIterator :=
  (im.pixelBegin channel).add im.channelSize

/-- The intended difference operator inverts `operator+`: advancing an
iterator with nonzero stride by `n` strides puts it at distance `n`. -/
theorem PixelIterator.diff_add (it : PixelIterator) (n : Int) (h : it.step ≠ 0) :
    (it.add n).diff it = n := by
  show (it.ptr + n * it.step - it.ptr) / it.step = n
  rw [show it.ptr + n * it.step - it.ptr = n * it.step from by ring]
  exact Int.mul_ediv_cancel _ h

/-- Claim C8 (the intended semantics of the defective operators): with
the difference operator returning the stride-scaled pointer difference
it computes, `pixelEnd(c) - pixelBegin(c)` equals `channelSize()` on
both 2-D and 3-D views under either layout (the stride is `channels()`
when interleaved and 1 when planar, both nonzero), and the relational
operators are the comparisons of the pointer positions of the two iterators
they compute. -/
theorem pixel_iterator_arithmetic (im2 : ImageData) (im3 : Image3DData) (c2 c3 : Nat)
    (h2 : 0 < im2.nchannels) (h3 : 0 < im3.nchannels) :
    (im2.pixelEnd c2).diff (im2.pixelBegin c2) = im2.channelSize ∧
    (im3.pixelEnd c3).diff (im3.pixelBegin c3) = im3.channelSize ∧
    ∀ a b : PixelIterator,
      (PixelIterator.lt a b ↔ a.ptr < b.ptr) ∧ (PixelIterator.gt a b ↔ a.ptr > b.ptr) ∧
      (PixelIterator.le a b ↔ a.ptr ≤ b.ptr) ∧ (PixelIterator.ge a b ↔ a.ptr ≥ b.ptr) := by
  have hstep2 : (im2.pixelBegin c2).step ≠ 0 := by
    unfold ImageData.pixelBegin
    split
    · exact Int.natCast_ne_zero.mpr (by omega)
    · exact one_ne_zero
  have hstep3 : (im3.pixelBegin c3).step ≠ 0 := by
    unfold Image3DData.pixelBegin
    split
    · exact Int.natCast_ne_zero.mpr (by omega)
    · exact one_ne_zero
  exact ⟨PixelIterator.diff_add (im2.pixelBegin c2) im2.channelSize hstep2,
    PixelIterator.diff_add (im3.pixelBegin c3) im3.channelSize hstep3,
    fun a b => ⟨Iff.rfl, Iff.rfl, Iff.rfl, Iff.rfl⟩⟩

/-- Witness for C8 at the concrete views `exImage2` (interleaved) and
`exImage3` (planar), channel 1. -/
theorem pixel_iterator_arithmetic_witness :
    0 < exImage2.nchannels ∧
    (exImage2.pixelEnd 1).diff (exImage2.pixelBegin 1) = exImage2.channelSize ∧
    (exImage3.pixelEnd 1).diff (exImage3.pixelBegin 1) = exImage3.channelSize :=
  ⟨by decide,
    (pixel_iterator_arithmetic exImage2 exImage3 1 1 (by decide) (by decide)).1,
    (pixel_iterator_arithmetic exImage2 exImage3 1 1 (by decide) (by decide)).2.1⟩

end LTemplate
